import Mathlib

/-!
Verification development for the `expCursor` WebSocket client library.

The definitions below are a shallow embedding of the C++ source
(`websocket_client.hpp`, the working variant): bytes of `std::string` values
are modelled as `Nat` entries of a `List Nat` (each `static_cast<uint8_t>`
in the source becomes an explicit `% 256`), `uint64_t`/`size_t` arithmetic
is modelled as `Nat` arithmetic with an explicit `% 2 ^ 64` where the source
adds machine integers, and out-parameters become components of the returned
value.
-/

set_option maxRecDepth 4096

namespace WS

/-- Mirror of `enum class ResultCode` in the source. -/
inductive ResultCode where
  | SUCCESS
  | URL_ERROR
  | CONNECTION_ERROR
  | HANDSHAKE_ERROR
  | FRAME_ERROR
  | SSL_ERROR
  | TIMEOUT
  | CLOSED
  | INVALID_STATE
  | INVALID_PARAMETER
deriving DecidableEq, Repr

/-- Mirror of `class WebSocketFrame`'s data members: `fin`, `opcode`,
`masked`, `mask_key` (4 bytes when masked), `payload`. Bytes are `Nat`. -/
structure WSFrame where
  fin : Bool := true
  opcode : Nat := 0
  masked : Bool := false
  mask_key : List Nat := []
  payload : List Nat := []
deriving DecidableEq, Repr

/-- Mirror of the masking loop `mp[i] = mp[i] ^ mask_key[i % 4]` of
`serialize` (and the identical unmasking loop of `parse`), starting at
index `i`. -/
def maskApply (mk : List Nat) : Nat → List Nat → List Nat
  | _, [] => []
  | i, b :: bs => (b ^^^ mk.getD (i % 4) 0) :: maskApply mk (i + 1) bs

/-- Mirror of `WebSocketFrame::serialize`. The three length encodings follow
`len < 126`, `len <= 0xFFFF`, else 8 big-endian bytes of the 64-bit length. -/
def serialize (f : WSFrame) : List Nat :=
  let b0 := (if f.fin then 128 else 0) ||| (f.opcode &&& 15)
  let len := f.payload.length
  let b1m := if f.masked then 128 else 0
  let lenBytes :=
    if len < 126 then [b1m ||| len]
    else if len ≤ 65535 then [b1m ||| 126, (len >>> 8) &&& 255, len &&& 255]
    else (b1m ||| 127) :: (List.range 8).map (fun k => (len >>> ((7 - k) * 8)) &&& 255)
  let maskPart := if f.masked then f.mask_key else []
  let body := if f.masked then maskApply f.mask_key 0 f.payload else f.payload
  b0 :: (lenBytes ++ (maskPart ++ body))

/-- Continuation of `WebSocketFrame::parse` once the payload length `len` and
the current offset `i` are determined: mask extraction, the payload-size
check `in.size() < i + len` (whose right-hand side is `uint64_t` addition,
hence the `% 2 ^ 64`), unmasking, and `consumed = i + len` (a `size_t`
addition, hence again `% 2 ^ 64`). -/
def parseTail (inp : List Nat) (fin : Bool) (opcode : Nat) (masked : Bool)
    (len i : Nat) : Except String WSFrame × Nat :=
  if masked ∧ inp.length < i + 4 then (.error "incomplete mask", 0)
  else if inp.length < ((if masked then i + 4 else i) + len) % 2 ^ 64 then
    (.error "incomplete payload", 0)
  else
    (.ok ⟨fin, opcode, masked,
      if masked then (inp.drop i).take 4 else [],
      if masked then
        maskApply ((inp.drop i).take 4) 0 ((inp.drop (i + 4)).take len)
      else (inp.drop i).take len⟩,
      ((if masked then i + 4 else i) + len) % 2 ^ 64)

/-- Mirror of `WebSocketFrame::parse`. The second component of the result is
the `consumed` out-parameter; every failure path of the source returns with
`consumed` still at its initial value 0. -/
def parse (inp : List Nat) : Except String WSFrame × Nat :=
  if inp.length < 2 then (.error "incomplete header", 0) else
  let b0 := inp.getD 0 0 % 256
  let b1 := inp.getD 1 0 % 256
  let fin := decide (b0 &&& 128 ≠ 0)
  let opcode := b0 &&& 15
  let masked := decide (b1 &&& 128 ≠ 0)
  let len0 := b1 &&& 127
  if len0 = 126 then
    if inp.length < 4 then (.error "incomplete 16-bit length", 0)
    else parseTail inp fin opcode masked
      (((inp.getD 2 0 % 256) <<< 8) ||| (inp.getD 3 0 % 256)) 4
  else if len0 = 127 then
    if inp.length < 10 then (.error "incomplete 64-bit length", 0)
    else parseTail inp fin opcode masked
      (((inp.drop 2).take 8).foldl (fun acc b => (acc <<< 8) ||| (b % 256)) 0) 10
  else parseTail inp fin opcode masked len0 2

end WS

namespace WS

instance {e a : Type} [DecidableEq e] [DecidableEq a] : DecidableEq (Except e a) := fun x y =>
  match x, y with
  | .ok u, .ok v =>
      if h : u = v then .isTrue (h ▸ rfl) else .isFalse (fun c => h (Except.ok.inj c))
  | .error u, .error v =>
      if h : u = v then .isTrue (h ▸ rfl) else .isFalse (fun c => h (Except.error.inj c))
  | .ok _, .error _ => .isFalse (fun c => Except.noConfusion c)
  | .error _, .ok _ => .isFalse (fun c => Except.noConfusion c)

lemma maskApply_length (mk : List Nat) (i : Nat) (p : List Nat) :
    (maskApply mk i p).length = p.length := by
  induction p generalizing i with
  | nil => rfl
  | cons b bs ih => simp [maskApply, ih]

lemma maskApply_involutive (mk : List Nat) (i : Nat) (p : List Nat) :
    maskApply mk i (maskApply mk i p) = p := by
  induction p generalizing i with
  | nil => rfl
  | cons b bs ih =>
      simp only [maskApply, List.cons.injEq]
      exact ⟨by rw [Nat.xor_assoc, Nat.xor_self, Nat.xor_zero], ih (i + 1)⟩

lemma lor_small (a k b : Nat) (hb : b < 2 ^ k) : (a <<< k) ||| b = a * 2 ^ k + b := by
  rw [Nat.shiftLeft_eq]
  rw [Nat.mul_comm]
  rw [← Nat.mul_add_lt_is_or hb a]

lemma beStep (a : Nat) : ((a / 256) <<< 8) ||| (a % 256) = a := by
  have h : a % 256 < 2 ^ 8 := by omega
  rw [lor_small _ 8 _ h]
  try omega

lemma land_255 (x : Nat) : x &&& 255 = x % 256 := by
  have h : (255 : Nat) = 2 ^ 8 - 1 := by norm_num
  rw [h, Nat.and_pow_two_sub_one_eq_mod]

/-- Decoding the 8 big-endian bytes emitted by `serialize` (through the fold
used by `parse`) recovers the length, for any length below `2 ^ 64`. -/
lemma be8_fold (len : Nat) (h : len < 2 ^ 64) :
    ((List.range 8).map (fun k => (len >>> ((7 - k) * 8)) &&& 255)).foldl
      (fun acc b => (acc <<< 8) ||| (b % 256)) 0 = len := by
  have hr : List.range 8 = [0, 1, 2, 3, 4, 5, 6, 7] := by rfl
  have e : ∀ s : Nat, len >>> s &&& 255 = len / 2 ^ s % 256 := by
    intro s
    rw [Nat.shiftRight_eq_div_pow, land_255]
  rw [hr]
  simp only [List.map, List.foldl, e]
  norm_num
  have a7 : len / 72057594037927936 % 256 = len / 72057594037927936 := by omega
  rw [a7]
  have d6 : len / 72057594037927936 = len / 281474976710656 / 256 := by omega
  rw [d6, beStep]
  have d5 : len / 281474976710656 = len / 1099511627776 / 256 := by omega
  rw [d5, beStep]
  have d4 : len / 1099511627776 = len / 4294967296 / 256 := by omega
  rw [d4, beStep]
  have d3 : len / 4294967296 = len / 16777216 / 256 := by omega
  rw [d3, beStep]
  have d2 : len / 16777216 = len / 65536 / 256 := by omega
  rw [d2, beStep]
  have d1 : len / 65536 = len / 256 / 256 := by omega
  rw [d1, beStep]
  exact beStep len

lemma b0_eval : ∀ (fin : Bool) (op : Nat), op < 16 →
    (((if fin then (128 : Nat) else 0) ||| (op &&& 15)) % 256
        = (if fin then (128 : Nat) else 0) ||| (op &&& 15)) ∧
    (decide ((((if fin then (128 : Nat) else 0) ||| (op &&& 15)) &&& 128) ≠ 0) = fin) ∧
    (((if fin then (128 : Nat) else 0) ||| (op &&& 15)) &&& 15 = op) := by
  intro fin
  cases fin <;> decide

lemma b1_eval : ∀ l : Nat, l < 126 →
    ((128 ||| l) % 256 = 128 ||| l) ∧
    (decide (((128 ||| l) &&& 128) ≠ 0) = true) ∧
    ((128 ||| l) &&& 127 = l) ∧
    (l % 256 = l) ∧
    (decide ((l &&& 128) ≠ 0) = false) ∧
    (l &&& 127 = l) := by decide

lemma len16_eval (L : Nat) (h : L ≤ 65535) :
    ((((L >>> 8) &&& 255) % 256) <<< 8) ||| ((L &&& 255) % 256) = L := by
  rw [land_255, land_255, Nat.shiftRight_eq_div_pow]
  have e1 : L / 2 ^ 8 % 256 % 256 = L / 256 := by omega
  have e2 : L % 256 % 256 = L % 256 := by omega
  rw [e1, e2]
  exact beStep L

lemma parseTail_ok_masked (pre mk pl extra : List Nat) (fin : Bool) (op i : Nat)
    (hpre : pre.length = i) (hmk : mk.length = 4)
    (hw : i + 4 + pl.length < 2 ^ 64) :
    parseTail (pre ++ (mk ++ (maskApply mk 0 pl ++ extra))) fin op true pl.length i =
      (.ok ⟨fin, op, true, mk, pl⟩, i + 4 + pl.length) := by
  have hlen : (pre ++ (mk ++ (maskApply mk 0 pl ++ extra))).length
      = i + 4 + (pl.length + extra.length) := by
    simp [hpre, hmk, maskApply_length]
    omega
  have c1 : ¬ (pre ++ (mk ++ (maskApply mk 0 pl ++ extra))).length < i + 4 := by
    rw [hlen]; omega
  have e1 : (pre ++ (mk ++ (maskApply mk 0 pl ++ extra))).drop i
      = mk ++ (maskApply mk 0 pl ++ extra) := List.drop_left' hpre
  have e2 : (mk ++ (maskApply mk 0 pl ++ extra)).take 4 = mk := List.take_left' hmk
  have e4 : (pre ++ (mk ++ (maskApply mk 0 pl ++ extra))).drop (i + 4)
      = maskApply mk 0 pl ++ extra := by
    rw [show pre ++ (mk ++ (maskApply mk 0 pl ++ extra))
        = (pre ++ mk) ++ (maskApply mk 0 pl ++ extra) by simp]
    exact List.drop_left' (by simp [hpre, hmk])
  have e5 : (maskApply mk 0 pl ++ extra).take pl.length = maskApply mk 0 pl :=
    List.take_left' (maskApply_length mk 0 pl)
  have hmod : (i + 4 + pl.length) % 2 ^ 64 = i + 4 + pl.length := Nat.mod_eq_of_lt hw
  have c2 : ¬ (pre ++ (mk ++ (maskApply mk 0 pl ++ extra))).length
      < (i + 4 + pl.length) % 2 ^ 64 := by
    rw [hmod, hlen]; omega
  simp only [parseTail, eq_self_iff_true, true_and, if_true]
  rw [if_neg c1, if_neg c2, e1, e2, e4, e5, maskApply_involutive, hmod]

lemma parseTail_ok_unmasked (pre pl extra : List Nat) (fin : Bool) (op i : Nat)
    (hpre : pre.length = i) (hw : i + pl.length < 2 ^ 64) :
    parseTail (pre ++ (pl ++ extra)) fin op false pl.length i =
      (.ok ⟨fin, op, false, [], pl⟩, i + pl.length) := by
  have hlen : (pre ++ (pl ++ extra)).length = i + (pl.length + extra.length) := by
    simp [hpre]
  have hmod : (i + pl.length) % 2 ^ 64 = i + pl.length := Nat.mod_eq_of_lt hw
  have c2 : ¬ (pre ++ (pl ++ extra)).length < (i + pl.length) % 2 ^ 64 := by
    rw [hmod, hlen]; omega
  have e1 : (pre ++ (pl ++ extra)).drop i = pl ++ extra := List.drop_left' hpre
  have e2 : (pl ++ extra).take pl.length = pl := List.take_left' rfl
  simp only [parseTail, Bool.false_eq_true, false_and, if_false]
  rw [if_neg c2, e1, e2, hmod]

lemma parseTail_err_mask (inp : List Nat) (fin : Bool) (op L i : Nat)
    (h : inp.length < i + 4) :
    parseTail inp fin op true L i = (.error "incomplete mask", 0) := by
  simp only [parseTail, eq_self_iff_true, true_and]
  rw [if_pos h]

lemma parseTail_err_payload_masked (inp : List Nat) (fin : Bool) (op L i : Nat)
    (h4 : ¬ inp.length < i + 4) (h : inp.length < (i + 4 + L) % 2 ^ 64) :
    parseTail inp fin op true L i = (.error "incomplete payload", 0) := by
  simp only [parseTail, eq_self_iff_true, true_and, if_true]
  rw [if_neg h4, if_pos h]

lemma parseTail_err_payload_unmasked (inp : List Nat) (fin : Bool) (op L i : Nat)
    (h : inp.length < (i + L) % 2 ^ 64) :
    parseTail inp fin op false L i = (.error "incomplete payload", 0) := by
  simp only [parseTail, Bool.false_eq_true, false_and, if_false]
  rw [if_pos h]

/-- Central round-trip lemma: parsing the serialization of a well-formed frame
(4-byte mask key when masked, empty mask key otherwise, opcode below 16,
total frame size below `2 ^ 64`), possibly followed by extra bytes, recovers
the frame and consumes exactly the serialization. -/
theorem parse_serialize_append (f : WSFrame) (extra : List Nat)
    (hop : f.opcode < 16)
    (hmk4 : f.masked = true → f.mask_key.length = 4)
    (hmk0 : f.masked = false → f.mask_key = [])
    (hL : f.payload.length + 14 < 2 ^ 64) :
    parse (serialize f ++ extra) = (.ok f, (serialize f).length) := by
  obtain ⟨fin, op, masked, mk, pl⟩ := f
  replace hop : op < 16 := hop
  replace hL : pl.length + 14 < 2 ^ 64 := hL
  obtain ⟨e0m, e0f, e0o⟩ := b0_eval fin op hop
  cases masked
  case false =>
    have hmk : mk = [] := hmk0 rfl
    subst hmk
    by_cases h1 : pl.length < 126
    · obtain ⟨_, _, _, e1m, e1f, e1l⟩ := b1_eval pl.length h1
      have hser : serialize ⟨fin, op, false, [], pl⟩ ++ extra
          = ((if fin then (128 : Nat) else 0) ||| (op &&& 15))
            :: pl.length :: (pl ++ extra) := by
        simp [serialize, h1]
      have hslen : (serialize ⟨fin, op, false, [], pl⟩).length = 2 + pl.length := by
        simp [serialize, h1]
        omega
      rw [hser, hslen]
      have hc2 : ¬ (((if fin then (128 : Nat) else 0) ||| (op &&& 15))
          :: pl.length :: (pl ++ extra)).length < 2 := by simp
      simp only [parse, List.getD_cons_zero, List.getD_cons_succ]
      rw [if_neg hc2]
      simp only [e0m, e1m, e0f, e1f, e0o, e1l]
      rw [if_neg (by omega : ¬ pl.length = 126), if_neg (by omega : ¬ pl.length = 127)]
      exact parseTail_ok_unmasked
        [((if fin then (128 : Nat) else 0) ||| (op &&& 15)), pl.length]
        pl extra fin op 2 rfl (by omega)
    · by_cases h2 : pl.length ≤ 65535
      · have hser : serialize ⟨fin, op, false, [], pl⟩ ++ extra
            = ((if fin then (128 : Nat) else 0) ||| (op &&& 15))
              :: 126 :: ((pl.length >>> 8) &&& 255) :: (pl.length &&& 255)
              :: (pl ++ extra) := by
          simp [serialize, h1, h2]
        have hslen : (serialize ⟨fin, op, false, [], pl⟩).length = 4 + pl.length := by
          simp [serialize, h1, h2]
          omega
        rw [hser, hslen]
        have hc2 : ¬ (((if fin then (128 : Nat) else 0) ||| (op &&& 15))
            :: 126 :: ((pl.length >>> 8) &&& 255) :: (pl.length &&& 255)
            :: (pl ++ extra)).length < 2 := by simp
        have hc4 : ¬ (((if fin then (128 : Nat) else 0) ||| (op &&& 15))
            :: 126 :: ((pl.length >>> 8) &&& 255) :: (pl.length &&& 255)
            :: (pl ++ extra)).length < 4 := by simp
        simp only [parse, List.getD_cons_zero, List.getD_cons_succ]
        rw [if_neg hc2]
        have f1 : (126 : Nat) % 256 = 126 := by decide
        have f2 : decide ((126 : Nat) &&& 128 ≠ 0) = false := by decide
        have f3 : (126 : Nat) &&& 127 = 126 := by decide
        simp only [e0m, e0f, e0o, f1, f2, f3]
        rw [if_neg hc4, len16_eval pl.length h2]
        exact parseTail_ok_unmasked
          [((if fin then (128 : Nat) else 0) ||| (op &&& 15)), 126,
            ((pl.length >>> 8) &&& 255), (pl.length &&& 255)]
          pl extra fin op 4 rfl (by omega)
      · have hser : serialize ⟨fin, op, false, [], pl⟩ ++ extra
            = ((if fin then (128 : Nat) else 0) ||| (op &&& 15))
              :: 127 :: (((List.range 8).map
                  (fun k => (pl.length >>> ((7 - k) * 8)) &&& 255)) ++ (pl ++ extra)) := by
          simp [serialize, h1, h2]
        have hslen : (serialize ⟨fin, op, false, [], pl⟩).length = 10 + pl.length := by
          simp [serialize, h1, h2]
          omega
        rw [hser, hslen]
        have hc2 : ¬ (((if fin then (128 : Nat) else 0) ||| (op &&& 15))
            :: 127 :: (((List.range 8).map
                (fun k => (pl.length >>> ((7 - k) * 8)) &&& 255)) ++ (pl ++ extra))).length
            < 2 := by simp
        have hc10 : ¬ (((if fin then (128 : Nat) else 0) ||| (op &&& 15))
            :: 127 :: (((List.range 8).map
                (fun k => (pl.length >>> ((7 - k) * 8)) &&& 255)) ++ (pl ++ extra))).length
            < 10 := by simp
        simp only [parse, List.getD_cons_zero, List.getD_cons_succ]
        rw [if_neg hc2]
        have f1 : (127 : Nat) % 256 = 127 := by decide
        have f2 : decide ((127 : Nat) &&& 128 ≠ 0) = false := by decide
        have f3 : (127 : Nat) &&& 127 = 127 := by decide
        simp only [e0m, e0f, e0o, f1, f2, f3]
        rw [if_neg hc10]
        simp only [List.drop_succ_cons, List.drop_zero]
        rw [List.take_left' (by simp), be8_fold pl.length (by omega)]
        exact parseTail_ok_unmasked
          (((if fin then (128 : Nat) else 0) ||| (op &&& 15))
            :: 127 :: ((List.range 8).map
                (fun k => (pl.length >>> ((7 - k) * 8)) &&& 255)))
          pl extra fin op 10 (by simp) (by omega)
  case true =>
    have hmk : mk.length = 4 := hmk4 rfl
    by_cases h1 : pl.length < 126
    · obtain ⟨e1m, e1f, e1l, _, _, _⟩ := b1_eval pl.length h1
      have hser : serialize ⟨fin, op, true, mk, pl⟩ ++ extra
          = ((if fin then (128 : Nat) else 0) ||| (op &&& 15))
            :: (128 ||| pl.length)
            :: (mk ++ (maskApply mk 0 pl ++ extra)) := by
        simp [serialize, h1]
      have hslen : (serialize ⟨fin, op, true, mk, pl⟩).length = 2 + 4 + pl.length := by
        simp [serialize, h1, hmk, maskApply_length]
        omega
      rw [hser, hslen]
      have hc2 : ¬ (((if fin then (128 : Nat) else 0) ||| (op &&& 15))
          :: (128 ||| pl.length)
          :: (mk ++ (maskApply mk 0 pl ++ extra))).length < 2 := by simp
      simp only [parse, List.getD_cons_zero, List.getD_cons_succ]
      rw [if_neg hc2]
      simp only [e0m, e1m, e0f, e1f, e0o, e1l]
      rw [if_neg (by omega : ¬ pl.length = 126), if_neg (by omega : ¬ pl.length = 127)]
      exact parseTail_ok_masked
        [((if fin then (128 : Nat) else 0) ||| (op &&& 15)), (128 ||| pl.length)]
        mk pl extra fin op 2 rfl hmk (by omega)
    · by_cases h2 : pl.length ≤ 65535
      · have hser : serialize ⟨fin, op, true, mk, pl⟩ ++ extra
            = ((if fin then (128 : Nat) else 0) ||| (op &&& 15))
              :: 254 :: ((pl.length >>> 8) &&& 255) :: (pl.length &&& 255)
              :: (mk ++ (maskApply mk 0 pl ++ extra)) := by
          simp [serialize, h1, h2]
        have hslen : (serialize ⟨fin, op, true, mk, pl⟩).length = 4 + 4 + pl.length := by
          simp [serialize, h1, h2, hmk, maskApply_length]
          omega
        rw [hser, hslen]
        have hc2 : ¬ (((if fin then (128 : Nat) else 0) ||| (op &&& 15))
            :: 254 :: ((pl.length >>> 8) &&& 255) :: (pl.length &&& 255)
            :: (mk ++ (maskApply mk 0 pl ++ extra))).length < 2 := by simp
        have hc4 : ¬ (((if fin then (128 : Nat) else 0) ||| (op &&& 15))
            :: 254 :: ((pl.length >>> 8) &&& 255) :: (pl.length &&& 255)
            :: (mk ++ (maskApply mk 0 pl ++ extra))).length < 4 := by simp
        simp only [parse, List.getD_cons_zero, List.getD_cons_succ]
        rw [if_neg hc2]
        have f1 : (254 : Nat) % 256 = 254 := by decide
        have f2 : decide ((254 : Nat) &&& 128 ≠ 0) = true := by decide
        have f3 : (254 : Nat) &&& 127 = 126 := by decide
        simp only [e0m, e0f, e0o, f1, f2, f3]
        rw [if_neg hc4, len16_eval pl.length h2]
        exact parseTail_ok_masked
          [((if fin then (128 : Nat) else 0) ||| (op &&& 15)), 254,
            ((pl.length >>> 8) &&& 255), (pl.length &&& 255)]
          mk pl extra fin op 4 rfl hmk (by omega)
      · have hser : serialize ⟨fin, op, true, mk, pl⟩ ++ extra
            = ((if fin then (128 : Nat) else 0) ||| (op &&& 15))
              :: 255 :: (((List.range 8).map
                  (fun k => (pl.length >>> ((7 - k) * 8)) &&& 255))
                ++ (mk ++ (maskApply mk 0 pl ++ extra))) := by
          simp [serialize, h1, h2]
        have hslen : (serialize ⟨fin, op, true, mk, pl⟩).length = 10 + 4 + pl.length := by
          simp [serialize, h1, h2, hmk, maskApply_length]
          omega
        rw [hser, hslen]
        have hc2 : ¬ (((if fin then (128 : Nat) else 0) ||| (op &&& 15))
            :: 255 :: (((List.range 8).map
                (fun k => (pl.length >>> ((7 - k) * 8)) &&& 255))
              ++ (mk ++ (maskApply mk 0 pl ++ extra)))).length < 2 := by simp
        have hc10 : ¬ (((if fin then (128 : Nat) else 0) ||| (op &&& 15))
            :: 255 :: (((List.range 8).map
                (fun k => (pl.length >>> ((7 - k) * 8)) &&& 255))
              ++ (mk ++ (maskApply mk 0 pl ++ extra)))).length < 10 := by simp
        simp only [parse, List.getD_cons_zero, List.getD_cons_succ]
        rw [if_neg hc2]
        have f1 : (255 : Nat) % 256 = 255 := by decide
        have f2 : decide ((255 : Nat) &&& 128 ≠ 0) = true := by decide
        have f3 : (255 : Nat) &&& 127 = 127 := by decide
        simp only [e0m, e0f, e0o, f1, f2, f3]
        rw [if_neg hc10]
        simp only [List.drop_succ_cons, List.drop_zero]
        rw [List.take_left' (by simp), be8_fold pl.length (by omega)]
        exact parseTail_ok_masked
          (((if fin then (128 : Nat) else 0) ||| (op &&& 15))
            :: 255 :: ((List.range 8).map
                (fun k => (pl.length >>> ((7 - k) * 8)) &&& 255)))
          mk pl extra fin op 10 (by simp) hmk (by omega)

lemma parse_short (inp : List Nat) (h : inp.length < 2) :
    parse inp = (.error "incomplete header", 0) := by
  simp only [parse]
  rw [if_pos h]

lemma parseTail_eval_masked (inp : List Nat) (fin : Bool) (op L i : Nat)
    (hm : ¬ inp.length < i + 4) (hp : ¬ inp.length < (i + 4 + L) % 2 ^ 64) :
    parseTail inp fin op true L i
      = (.ok ⟨fin, op, true, (inp.drop i).take 4,
          maskApply ((inp.drop i).take 4) 0 ((inp.drop (i + 4)).take L)⟩,
        (i + 4 + L) % 2 ^ 64) := by
  simp only [parseTail, eq_self_iff_true, true_and, if_true]
  rw [if_neg hm, if_neg hp]

lemma parseTail_eval_unmasked (inp : List Nat) (fin : Bool) (op L i : Nat)
    (hp : ¬ inp.length < (i + L) % 2 ^ 64) :
    parseTail inp fin op false L i
      = (.ok ⟨fin, op, false, [], (inp.drop i).take L⟩, (i + L) % 2 ^ 64) := by
  simp only [parseTail, Bool.false_eq_true, false_and, if_false]
  rw [if_neg hp]

/-- On a buffer from which `parseTail` succeeds consuming everything, every
shorter buffer prefix makes `parseTail` fail with `consumed = 0`. -/
lemma parseTail_truncated (B : List Nat) (fr : WSFrame) (fin : Bool) (op : Nat)
    (masked : Bool) (L i n : Nat)
    (h : parseTail B fin op masked L i = (.ok fr, B.length)) (hn : n < B.length) :
    ∃ msg, parseTail (B.take n) fin op masked L i = (.error msg, 0) := by
  have hlen : (B.take n).length = n := by
    rw [List.length_take]
    omega
  cases masked
  case false =>
    have hpg : ¬ B.length < (i + L) % 2 ^ 64 := by
      intro hlt
      rw [parseTail_err_payload_unmasked B fin op L i hlt] at h
      exact absurd (congrArg Prod.fst h) (by simp)
    rw [parseTail_eval_unmasked B fin op L i hpg] at h
    have hcons : (i + L) % 2 ^ 64 = B.length := congrArg Prod.snd h
    exact ⟨"incomplete payload",
      parseTail_err_payload_unmasked _ fin op L i (by rw [hlen, hcons]; omega)⟩
  case true =>
    have hm : ¬ B.length < i + 4 := by
      intro hlt
      rw [parseTail_err_mask B fin op L i hlt] at h
      exact absurd (congrArg Prod.fst h) (by simp)
    have hpg : ¬ B.length < (i + 4 + L) % 2 ^ 64 := by
      intro hlt
      rw [parseTail_err_payload_masked B fin op L i hm hlt] at h
      exact absurd (congrArg Prod.fst h) (by simp)
    rw [parseTail_eval_masked B fin op L i hm hpg] at h
    have hcons : (i + 4 + L) % 2 ^ 64 = B.length := congrArg Prod.snd h
    rcases Nat.lt_or_ge n (i + 4) with h4 | h4
    · exact ⟨"incomplete mask",
        parseTail_err_mask _ fin op L i (by rw [hlen]; omega)⟩
    · exact ⟨"incomplete payload",
        parseTail_err_payload_masked _ fin op L i (by rw [hlen]; omega)
          (by rw [hlen, hcons]; omega)⟩

/-- When `parse` succeeds on a buffer consuming it entirely, `parse` on every
proper prefix of the buffer fails (and, the failure paths of the source
leaving `consumed` untouched, reports 0 bytes consumed). -/
theorem parse_truncated_incomplete (B : List Nat) (fr : WSFrame)
    (h : parse B = (.ok fr, B.length)) (n : Nat) (hn : n < B.length) :
    ∃ msg, parse (B.take n) = (.error msg, 0) := by
  have h2 : ¬ B.length < 2 := by
    intro hlt
    rw [parse_short B hlt] at h
    exact absurd (congrArg Prod.fst h) (by simp)
  rcases Nat.lt_or_ge n 2 with hn2 | hn2
  · refine ⟨"incomplete header", parse_short _ ?_⟩
    rw [List.length_take]
    omega
  have g0 : (B.take n).getD 0 0 = B.getD 0 0 := by
    rw [List.getD_eq_getElem?_getD, List.getD_eq_getElem?_getD,
      List.getElem?_take_of_lt (by omega)]
  have g1 : (B.take n).getD 1 0 = B.getD 1 0 := by
    rw [List.getD_eq_getElem?_getD, List.getD_eq_getElem?_getD,
      List.getElem?_take_of_lt (by omega)]
  have hlt : ¬ (B.take n).length < 2 := by
    rw [List.length_take]
    omega
  simp only [parse] at h ⊢
  rw [if_neg h2] at h
  rw [if_neg hlt]
  simp only [g0, g1]
  by_cases c126 : (B.getD 1 0 % 256) &&& 127 = 126
  · rw [if_pos c126] at h
    rw [if_pos c126]
    have h4 : ¬ B.length < 4 := by
      intro hlt4
      rw [if_pos hlt4] at h
      exact absurd (congrArg Prod.fst h) (by simp)
    rw [if_neg h4] at h
    rcases Nat.lt_or_ge n 4 with hn4 | hn4
    · refine ⟨"incomplete 16-bit length", ?_⟩
      rw [if_pos (by rw [List.length_take]; omega)]
    · have g2 : (B.take n).getD 2 0 = B.getD 2 0 := by
        rw [List.getD_eq_getElem?_getD, List.getD_eq_getElem?_getD,
          List.getElem?_take_of_lt (by omega)]
      have g3 : (B.take n).getD 3 0 = B.getD 3 0 := by
        rw [List.getD_eq_getElem?_getD, List.getD_eq_getElem?_getD,
          List.getElem?_take_of_lt (by omega)]
      rw [if_neg (by rw [List.length_take]; omega)]
      simp only [g2, g3]
      exact parseTail_truncated B fr _ _ _ _ 4 n h hn
  · rw [if_neg c126] at h
    rw [if_neg c126]
    by_cases c127 : (B.getD 1 0 % 256) &&& 127 = 127
    · rw [if_pos c127] at h
      rw [if_pos c127]
      have h10 : ¬ B.length < 10 := by
        intro hlt10
        rw [if_pos hlt10] at h
        exact absurd (congrArg Prod.fst h) (by simp)
      rw [if_neg h10] at h
      rcases Nat.lt_or_ge n 10 with hn10 | hn10
      · refine ⟨"incomplete 64-bit length", ?_⟩
        rw [if_pos (by rw [List.length_take]; omega)]
      · have gf : ((B.take n).drop 2).take 8 = (B.drop 2).take 8 := by
          rw [List.drop_take, List.take_take]
          congr 1
          omega
        rw [if_neg (by rw [List.length_take]; omega)]
        rw [gf]
        exact parseTail_truncated B fr _ _ _ _ 10 n h hn
    · rw [if_neg c127] at h
      rw [if_neg c127]
      exact parseTail_truncated B fr _ _ _ _ 2 n h hn

lemma parseTail_cases (inp : List Nat) (fin : Bool) (op : Nat) (masked : Bool)
    (L i : Nat) :
    (∃ msg, parseTail inp fin op masked L i = (.error msg, 0)) ∨
    (∃ fr, parseTail inp fin op masked L i
        = (.ok fr, ((if masked then i + 4 else i) + L) % 2 ^ 64) ∧
      ¬ inp.length < ((if masked then i + 4 else i) + L) % 2 ^ 64) := by
  by_cases g1 : masked ∧ inp.length < i + 4
  · exact .inl ⟨"incomplete mask", by simp only [parseTail]; rw [if_pos g1]⟩
  · by_cases g2 : inp.length < ((if masked then i + 4 else i) + L) % 2 ^ 64
    · exact .inl ⟨"incomplete payload",
        by simp only [parseTail]; rw [if_neg g1, if_pos g2]⟩
    · exact .inr ⟨_, by simp only [parseTail]; rw [if_neg g1, if_neg g2], g2⟩

/-- Exhaustive behaviour of `parse`: every failure has `consumed = 0` and
every success has `consumed` bounded by the length check the source just
performed. -/
theorem parse_cases (inp : List Nat) :
    (∃ msg, parse inp = (.error msg, 0)) ∨
    (∃ fr c, parse inp = (.ok fr, c) ∧ ¬ inp.length < c) := by
  by_cases h2 : inp.length < 2
  · exact .inl ⟨_, parse_short inp h2⟩
  simp only [parse]
  rw [if_neg h2]
  by_cases c126 : (inp.getD 1 0 % 256) &&& 127 = 126
  · rw [if_pos c126]
    by_cases h4 : inp.length < 4
    · rw [if_pos h4]
      exact .inl ⟨_, rfl⟩
    · rw [if_neg h4]
      rcases parseTail_cases inp _ _ _ _ 4 with ⟨msg, hm⟩ | ⟨fr, hok, hc⟩
      · exact .inl ⟨msg, hm⟩
      · exact .inr ⟨fr, _, hok, hc⟩
  · rw [if_neg c126]
    by_cases c127 : (inp.getD 1 0 % 256) &&& 127 = 127
    · rw [if_pos c127]
      by_cases h10 : inp.length < 10
      · rw [if_pos h10]
        exact .inl ⟨_, rfl⟩
      · rw [if_neg h10]
        rcases parseTail_cases inp _ _ _ _ 10 with ⟨msg, hm⟩ | ⟨fr, hok, hc⟩
        · exact .inl ⟨msg, hm⟩
        · exact .inr ⟨fr, _, hok, hc⟩
    · rw [if_neg c127]
      rcases parseTail_cases inp _ _ _ _ 2 with ⟨msg, hm⟩ | ⟨fr, hok, hc⟩
      · exact .inl ⟨msg, hm⟩
      · exact .inr ⟨fr, _, hok, hc⟩

end WS

namespace WS

/-- Mirror of `enum class WebSocketState`. -/
inductive WSState where
  | CONNECTING
  | OPEN
  | CLOSING
  | CLOSED
deriving DecidableEq, Repr

/-- Mirror of `class WebSocketConfig` with the defaults set by its
constructor (`max_frame_size_(1024 * 1024)` and friends). Header and
extension maps are kept as association lists. -/
structure WebSocketConfig where
  timeout_ms : Nat := 5000
  max_frame_size : Nat := 1024 * 1024
  enable_compression : Bool := false
  compression_level : Nat := 6
  ping_interval_ms : Nat := 30000
  pong_timeout_ms : Nat := 10000
  headers : List (List Char × List Char) := []
  extensions : List (List Char × List Char) := []
deriving DecidableEq, Repr

/-- Observable per-connection state of `WebSocketClient`: the atomic
`state_`, the atomic `stop_` flag, whether the transport is open, and the
bytes written to the transport so far. -/
structure ClientState where
  state : WSState
  stop : Bool
  transportOpen : Bool
  wire : List Nat
deriving DecidableEq, Repr

/-- Callback invocations observable from `WebSocketClient`. -/
inductive WSEvent where
  | onText (p : List Nat)
  | onBinary (p : List Nat)
  | onOpen
  | onClose
  | onError (r : ResultCode)
deriving DecidableEq, Repr

/-- Mirror of `WebSocketClient::sendFrame`: `INVALID_STATE` unless OPEN;
otherwise a frame with `fin = true`, `masked = true`, a fresh random 4-byte
mask key (the parameter `mk` stands for the `Utils::randomBytes(4)` draw)
and the given opcode/payload is serialized and written whole to the
transport under the send mutex (the success path of `sendAll`). -/
def sendFrame (cs : ClientState) (mk : List Nat) (opcode : Nat)
    (payload : List Nat) : ClientState × ResultCode :=
  if cs.state ≠ WSState.OPEN then (cs, .INVALID_STATE)
  else ({ cs with wire := cs.wire ++ serialize ⟨true, opcode, true, mk, payload⟩ },
    .SUCCESS)

/-- Mirror of `WebSocketClient::sendText` (`FrameType::TEXT = 0x1`). -/
def sendText (cs : ClientState) (mk : List Nat) (text : List Nat) :
    ClientState × ResultCode := sendFrame cs mk 1 text

/-- Mirror of `WebSocketClient::sendBinary` (`FrameType::BINARY = 0x2`). -/
def sendBinary (cs : ClientState) (mk : List Nat) (data : List Nat) :
    ClientState × ResultCode := sendFrame cs mk 2 data

/-- Mirror of `WebSocketClient::ping` (`FrameType::PING = 0x9`). -/
def pingFrame (cs : ClientState) (mk : List Nat) (data : List Nat) :
    ClientState × ResultCode := sendFrame cs mk 9 data

/-- Mirror of `WebSocketClient::handleFrame`'s `switch` on the received
opcode: TEXT and BINARY fire the callbacks, PING replies with a PONG
carrying the same payload, PONG is ignored, CLOSE echoes an empty close
frame and sets `stop_`, and every other opcode falls into `default:` —
`mk` stands for the random mask bytes drawn by a nested `sendFrame`. -/
def handleFrame (cs : ClientState) (mk : List Nat) (f : WSFrame) :
    ClientState × List WSEvent :=
  if f.opcode = 1 then (cs, [.onText f.payload])
  else if f.opcode = 2 then (cs, [.onBinary f.payload])
  else if f.opcode = 9 then ((sendFrame cs mk 10 f.payload).1, [])
  else if f.opcode = 10 then (cs, [])
  else if f.opcode = 8 then
    ({ (sendFrame cs mk 8 []).1 with stop := true }, [])
  else (cs, [])

/-- Mirror of `WebSocketClient::disconnect`: no-op when CLOSED; a
best-effort close frame when OPEN; then `stop_ = true`, the worker is
joined, the transport is closed, the state is set to CLOSED and the close
callback fires. -/
def disconnect (cs : ClientState) (mk : List Nat) : ClientState × List WSEvent :=
  if cs.state = WSState.CLOSED then (cs, [])
  else
    ({ (if cs.state = WSState.OPEN then (sendFrame cs mk 8 []).1 else cs) with
        stop := true, transportOpen := false, state := WSState.CLOSED },
      [.onClose])

lemma maskApply_getD (mk p : List Nat) (j i : Nat) (h : i < p.length) :
    (maskApply mk j p).getD i 0 = (p.getD i 0) ^^^ mk.getD ((j + i) % 4) 0 := by
  induction p generalizing j i with
  | nil => simp at h
  | cons b bs ih =>
      cases i with
      | zero => simp [maskApply]
      | succ m =>
          have hm : m < bs.length := by simpa using h
          simp only [maskApply, List.getD_cons_succ]
          rw [ih (j + 1) m hm]
          congr 2
          omega

end WS

namespace WS

/-- Phase of one sending thread inside `WebSocketClient::sendFrame`:
before `serialize` (`start`), holding the encoded bytes before taking the
send mutex (`ready`), inside `sendAll` with the listed bytes still to write
(`writing`), finished (`done`). -/
inductive SPhase where
  | start : WSFrame → SPhase
  | ready : List Nat → SPhase
  | writing : List Nat → SPhase
  | done : SPhase
deriving DecidableEq

/-- State of `n` threads concurrently calling `sendFrame` on one client:
the byte stream written to the transport so far, the owner of `send_mtx_`,
and each thread's phase. -/
structure SenderState (n : Nat) where
  wire : List Nat
  holder : Option (Fin n)
  ph : Fin n → SPhase

/-- Interleaving semantics of the send path: `serialize` runs outside the
mutex; `lock_guard` is acquired before any byte of the frame reaches the
transport; `sendAll` may write the frame in several nonempty chunks while
the mutex is held; the mutex is released only after the whole frame has
been written. -/
inductive SenderStep (n : Nat) : SenderState n → SenderState n → Prop where
  | encode (s : SenderState n) (i : Fin n) (f : WSFrame) :
      s.ph i = .start f →
      SenderStep n s { s with ph := Function.update s.ph i (.ready (serialize f)) }
  | acquire (s : SenderState n) (i : Fin n) (d : List Nat) :
      s.holder = none → s.ph i = .ready d →
      SenderStep n s
        { s with holder := some i, ph := Function.update s.ph i (.writing d) }
  | write (s : SenderState n) (i : Fin n) (chunk rest : List Nat) :
      s.holder = some i → s.ph i = .writing (chunk ++ rest) → chunk ≠ [] →
      SenderStep n s
        { s with wire := s.wire ++ chunk, ph := Function.update s.ph i (.writing rest) }
  | release (s : SenderState n) (i : Fin n) :
      s.holder = some i → s.ph i = .writing [] →
      SenderStep n s
        { s with holder := none, ph := Function.update s.ph i .done }

/-- Initial state: nothing written, mutex free, every thread about to send
its frame. -/
def senderInit (n : Nat) (frames : Fin n → WSFrame) : SenderState n :=
  { wire := [], holder := none, ph := fun i => .start (frames i) }

/-- Invariant of the sender system: the wire is the concatenation of the
whole encoded frames of the threads that finished, in some order, followed
by the partial output of the current mutex holder (if any); only the holder
can be mid-write. -/
def SenderInv (n : Nat) (frames : Fin n → WSFrame) (s : SenderState n) : Prop :=
  ∃ dl : List (Fin n), dl.Nodup ∧ (∀ i, i ∈ dl ↔ s.ph i = .done) ∧
    (∀ i f, s.ph i = .start f → f = frames i) ∧
    (∀ i d, s.ph i = .ready d → d = serialize (frames i)) ∧
    ((s.holder = none ∧ (∀ i r, s.ph i ≠ .writing r) ∧
        s.wire = (dl.map (fun i => serialize (frames i))).flatten) ∨
      (∃ h pre rem, s.holder = some h ∧ s.ph h = .writing rem ∧
        pre ++ rem = serialize (frames h) ∧
        (∀ i r, i ≠ h → s.ph i ≠ .writing r) ∧
        s.wire = (dl.map (fun i => serialize (frames i))).flatten ++ pre))

lemma senderInv_init (n : Nat) (frames : Fin n → WSFrame) :
    SenderInv n frames (senderInit n frames) := by
  refine ⟨[], List.nodup_nil, ?_, ?_, ?_, .inl ⟨rfl, ?_, rfl⟩⟩
  · intro i
    simp [senderInit]
  · intro i f h
    simp only [senderInit] at h
    exact (SPhase.start.inj h).symm
  · intro i d h
    simp [senderInit] at h
  · intro i r
    simp [senderInit]

lemma senderInv_step (n : Nat) (frames : Fin n → WSFrame) (s t : SenderState n)
    (hstep : SenderStep n s t) (hinv : SenderInv n frames s) :
    SenderInv n frames t := by
  obtain ⟨dl, hnd, hmem, hstart, hready, hcase⟩ := hinv
  cases hstep with
  | encode i f hph =>
      dsimp only [SenderInv]
      refine ⟨dl, hnd, ?_, ?_, ?_, ?_⟩
      · intro j
        rcases eq_or_ne j i with rfl | hji
        · simp only [Function.update_same]
          rw [hmem j, hph]
          constructor
          · intro hc
            exact absurd hc (by simp)
          · intro hc
            exact absurd hc (by simp)
        · simpa [Function.update_noteq hji] using hmem j
      · intro j f' hj
        rcases eq_or_ne j i with rfl | hji
        · rw [Function.update_same] at hj
          exact absurd hj (by simp)
        · rw [Function.update_noteq hji] at hj
          exact hstart j f' hj
      · intro j d hj
        rcases eq_or_ne j i with rfl | hji
        · rw [Function.update_same] at hj
          obtain rfl : serialize f = d := SPhase.ready.inj hj
          rw [hstart j f hph]
        · rw [Function.update_noteq hji] at hj
          exact hready j d hj
      · rcases hcase with ⟨hh, hnw, hw⟩ | ⟨h, pre, rem, hh, hwr, hbuf, hnw, hw⟩
        · refine .inl ⟨hh, ?_, hw⟩
          intro j r
          rcases eq_or_ne j i with rfl | hji
          · simp [Function.update_same]
          · rw [Function.update_noteq hji]
            exact hnw j r
        · have hih : i ≠ h := by
            intro hcon
            rw [hcon, hwr] at hph
            exact absurd hph (by simp)
          refine .inr ⟨h, pre, rem, hh, ?_, hbuf, ?_, hw⟩
          · rw [Function.update_noteq (Ne.symm hih)]
            exact hwr
          · intro j r hjh
            rcases eq_or_ne j i with rfl | hji
            · simp [Function.update_same]
            · rw [Function.update_noteq hji]
              exact hnw j r hjh
  | acquire i d hh0 hph =>
      dsimp only [SenderInv]
      rcases hcase with ⟨hh, hnw, hw⟩ | ⟨h, pre, rem, hh, hwr, hbuf, hnw, hw⟩
      · refine ⟨dl, hnd, ?_, ?_, ?_, .inr ⟨i, [], d, rfl, ?_, ?_, ?_, ?_⟩⟩
        · intro j
          rcases eq_or_ne j i with rfl | hji
          · simp only [Function.update_same]
            rw [hmem j, hph]
            constructor
            · intro hc
              exact absurd hc (by simp)
            · intro hc
              exact absurd hc (by simp)
          · simpa [Function.update_noteq hji] using hmem j
        · intro j f' hj
          rcases eq_or_ne j i with rfl | hji
          · rw [Function.update_same] at hj
            exact absurd hj (by simp)
          · rw [Function.update_noteq hji] at hj
            exact hstart j f' hj
        · intro j d' hj
          rcases eq_or_ne j i with rfl | hji
          · rw [Function.update_same] at hj
            exact absurd hj (by simp)
          · rw [Function.update_noteq hji] at hj
            exact hready j d' hj
        · exact Function.update_same i (.writing d) s.ph
        · rw [List.nil_append]
          exact hready i d hph
        · intro j r hji
          rw [Function.update_noteq hji]
          exact hnw j r
        · rw [hw, List.append_nil]
      · rw [hh] at hh0
        exact absurd hh0 (by simp)
  | write i chunk rest hh0 hph hchunk =>
      dsimp only [SenderInv]
      rcases hcase with ⟨hh, hnw, hw⟩ | ⟨h, pre, rem, hh, hwr, hbuf, hnw, hw⟩
      · rw [hh] at hh0
        exact absurd hh0 (by simp)
      · have hih : i = h := by
          rw [hh] at hh0
          exact Option.some.inj hh0.symm
        subst hih
        obtain rfl : rem = chunk ++ rest := by
          rw [hwr] at hph
          exact SPhase.writing.inj hph
        refine ⟨dl, hnd, ?_, ?_, ?_,
          .inr ⟨i, pre ++ chunk, rest, hh, Function.update_same _ _ _, ?_, ?_, ?_⟩⟩
        · intro j
          rcases eq_or_ne j i with rfl | hji
          · simp only [Function.update_same]
            rw [hmem j, hwr]
            constructor
            · intro hc
              exact absurd hc (by simp)
            · intro hc
              exact absurd hc (by simp)
          · simpa [Function.update_noteq hji] using hmem j
        · intro j f' hj
          rcases eq_or_ne j i with rfl | hji
          · rw [Function.update_same] at hj
            exact absurd hj (by simp)
          · rw [Function.update_noteq hji] at hj
            exact hstart j f' hj
        · intro j d' hj
          rcases eq_or_ne j i with rfl | hji
          · rw [Function.update_same] at hj
            exact absurd hj (by simp)
          · rw [Function.update_noteq hji] at hj
            exact hready j d' hj
        · rw [List.append_assoc]
          exact hbuf
        · intro j r hji
          rw [Function.update_noteq hji]
          exact hnw j r hji
        · rw [hw, List.append_assoc]
  | release i hh0 hph =>
      dsimp only [SenderInv]
      rcases hcase with ⟨hh, hnw, hw⟩ | ⟨h, pre, rem, hh, hwr, hbuf, hnw, hw⟩
      · rw [hh] at hh0
        exact absurd hh0 (by simp)
      · have hih : i = h := by
          rw [hh] at hh0
          exact Option.some.inj hh0.symm
        subst hih
        obtain rfl : rem = [] := by
          rw [hwr] at hph
          exact SPhase.writing.inj hph
        have hidl : i ∉ dl := by
          intro hc
          rw [hmem i, hwr] at hc
          exact absurd hc (by simp)
        refine ⟨dl ++ [i], ?_, ?_, ?_, ?_, .inl ⟨rfl, ?_, ?_⟩⟩
        · simp [List.nodup_append, hnd, hidl]
        · intro j
          rcases eq_or_ne j i with rfl | hji
          · simp [Function.update_same]
          · simp only [Function.update_noteq hji, List.mem_append,
              List.mem_singleton, hji, or_false]
            exact hmem j
        · intro j f' hj
          rcases eq_or_ne j i with rfl | hji
          · rw [Function.update_same] at hj
            exact absurd hj (by simp)
          · rw [Function.update_noteq hji] at hj
            exact hstart j f' hj
        · intro j d' hj
          rcases eq_or_ne j i with rfl | hji
          · rw [Function.update_same] at hj
            exact absurd hj (by simp)
          · rw [Function.update_noteq hji] at hj
            exact hready j d' hj
        · intro j r
          rcases eq_or_ne j i with rfl | hji
          · simp [Function.update_same]
          · rw [Function.update_noteq hji]
            exact hnw j r hji
        · rw [List.append_nil] at hbuf
          rw [hw, hbuf]
          simp

lemma senderInv_reach (n : Nat) (frames : Fin n → WSFrame) (s : SenderState n)
    (h : Relation.ReflTransGen (SenderStep n) (senderInit n frames) s) :
    SenderInv n frames s := by
  induction h with
  | refl => exact senderInv_init n frames
  | tail _ hstep ih => exact senderInv_step n frames _ _ hstep ih

end WS

namespace WS

/-- Mirror of `std::string::find(pat)`: index of the first occurrence of
`pat` in `s`; `none` plays the role of `std::string::npos`. -/
def strFind (s pat : List Char) : Option Nat :=
  if pat.isPrefixOf s then some 0
  else
    match s with
    | [] => none
    | _ :: t => (strFind t pat).map (· + 1)

/-- Mirror of the whitespace set `" \t\r\n"` used by `Utils::trim`. -/
def isWsp (c : Char) : Bool :=
  c == ' ' || c == '\t' || c == '\r' || c == '\n'

/-- Mirror of `Utils::trim` (`find_first_not_of`/`find_last_not_of` over
`" \t\r\n"`): strip leading and trailing whitespace; all-whitespace input
gives the empty string. -/
def trim (s : List Char) : List Char :=
  ((s.dropWhile isWsp).reverse.dropWhile isWsp).reverse

/-- Mirror of `Utils::split`, whose `std::getline` loop yields no piece at
all for the empty string and no trailing empty piece after a trailing
delimiter. -/
def splitCpp (s : List Char) (d : Char) : List (List Char) :=
  match s with
  | [] => []
  | c :: t =>
    if c = d then [] :: splitCpp t d
    else
      match splitCpp t d with
      | [] => [[c]]
      | p :: ps => (c :: p) :: ps

/-- ASCII lower-casing of one character, the effect of `::tolower` on the
ASCII header text the handshake deals with. -/
def asciiToLower (c : Char) : Char :=
  if 'A' ≤ c ∧ c ≤ 'Z' then Char.ofNat (c.toNat + 32) else c

/-- Mirror of `Utils::toLower`. -/
def toLowerStr (s : List Char) : List Char := s.map asciiToLower

/-- Decimal value of the all-digit strings `URL::parse` feeds to `atoi`
(the call site has just checked emptiness and digits). -/
def atoiNat (s : List Char) : Nat :=
  s.foldl (fun a c => a * 10 + (c.toNat - 48)) 0

/-- Mirror of the data members of `class URL`; `query_` is declared in the
source but never assigned by `parse`, so it is always empty. -/
structure URLRec where
  scheme : List Char
  host : List Char
  port : Nat
  path : List Char
  query : List Char
deriving DecidableEq, Repr

/-- Final checks of `URL::parse` shared by both port branches: non-empty
host, then scheme ∈ ws/wss, then success. -/
def urlFinish (scheme host : List Char) (port : Nat) (path : List Char) :
    Except (List Char) URLRec :=
  if host = [] then .error "invalid url: missing host".toList
  else if scheme ≠ "ws".toList ∧ scheme ≠ "wss".toList then
    .error "invalid url: scheme must be ws/wss".toList
  else .ok ⟨scheme, host, port, path, []⟩

/-- Mirror of `URL::parse`: split at `"://"`; split the remainder at the
first `'/'` into authority and path (path defaulting to `"/"` and keeping
the literal `'/'`); split the authority at `':'`; the port must be a
non-empty all-digit string whose `atoi` value lies in 1..65535, defaulting
to 443/80 when absent. No `'?'` handling occurs anywhere. -/
def urlParse (url : List Char) : Except (List Char) URLRec :=
  match strFind url "://".toList with
  | none => .error "invalid url: missing scheme".toList
  | some pos =>
    let scheme := url.take pos
    let rest := url.drop (pos + 3)
    let hostport := match strFind rest ['/'] with
      | none => rest
      | some s => rest.take s
    let path := match strFind rest ['/'] with
      | none => "/".toList
      | some s => rest.drop s
    match strFind hostport [':'] with
    | none =>
        urlFinish scheme hostport (if scheme = "wss".toList then 443 else 80) path
    | some colon =>
        let p := hostport.drop (colon + 1)
        if p = [] ∨ ¬ (∀ c ∈ p, c.isDigit) then .error "invalid url: bad port".toList
        else if atoiNat p = 0 ∨ atoiNat p > 65535 then
          .error "invalid url: bad port".toList
        else urlFinish scheme (hostport.take colon) (atoiNat p) path

end WS

namespace WS

/-- Base64 alphabet of `Utils::base64Encode`. -/
def base64Table : List Char :=
  "ABCDEFGHIJKLMNOPQRSTUVWXYZabcdefghijklmnopqrstuvwxyz0123456789+/".toList

/-- Body of the `while (valb >= 0)` loop of `Utils::base64Encode`, run a
precomputed number of times: emit `table[(val >> valb) & 0x3F]`, decrement
`valb` by 6. -/
def b64FlushGo (val : Nat) : Nat → Int → List Char → List Char × Int
  | 0, valb, out => (out, valb)
  | n + 1, valb, out =>
      b64FlushGo val n (valb - 6) (out ++ [base64Table.getD ((val >>> valb.toNat) &&& 63) 'A'])

/-- The `while (valb >= 0)` loop of `Utils::base64Encode`: starting from
`valb`, it runs once for each of `valb, valb - 6, valb - 12, ...` that is
still nonnegative, i.e. `valb / 6 + 1` times when `0 ≤ valb` and not at
all otherwise. -/
def b64Flush (val : Nat) (valb : Int) (out : List Char) : List Char × Int :=
  b64FlushGo val (if 0 ≤ valb then valb.toNat / 6 + 1 else 0) valb out

/-- Accumulator of `Utils::base64Encode`: output so far, the `int val` bit
accumulator and the `int valb` fill counter. Only the low `valb + 6 ≤ 14`
bits of `val` are ever inspected, so the `int` overflow of `val <<= 8` in
the source (2's-complement wrap) cannot change the emitted characters and
`val` is modelled as an unbounded `Nat`. -/
structure B64State where
  out : List Char
  val : Nat
  valb : Int

/-- One input byte of `Utils::base64Encode`'s fold (`unsigned char c`). -/
def b64Step (st : B64State) (c : Nat) : B64State :=
  let val := (st.val <<< 8) + c % 256
  let valb := st.valb + 8
  let fl := b64Flush val valb st.out
  ⟨fl.1, val, fl.2⟩

/-- Trailing `while (out.size() % 4) out.push_back('=')` padding loop: it
appends `'='` until the length is a multiple of 4, i.e. exactly
`(4 - out.length % 4) % 4` characters. -/
def padEq (out : List Char) : List Char :=
  out ++ List.replicate ((4 - out.length % 4) % 4) '='

/-- Mirror of `Utils::base64Encode` (bytes in, base64 text out). -/
def base64Encode (input : List Nat) : List Char :=
  let st := input.foldl b64Step ⟨[], 0, -6⟩
  let out2 :=
    if st.valb > -6 then
      st.out ++ [base64Table.getD (((st.val <<< 8) >>> (st.valb + 8).toNat) &&& 63) 'A']
    else st.out
  padEq out2

/-- The RFC 6455 GUID appended by `WebSocketHandshake::buildRequest`. -/
def wsGUID : List Char := "258EAFA5-E914-47DA-95CA-C5AB0DC85B11".toList

def crlf : List Char := ['\r', '\n']

/-- One extension item `name[; params]` of the `Sec-WebSocket-Extensions`
header. -/
def extOne (kv : List Char × List Char) : List Char :=
  kv.1 ++ (if kv.2 = [] then [] else "; ".toList ++ kv.2)

/-- Mirror of the extension-joining loop of `buildRequest` (`", "` between
items). -/
def extConcat : List (List Char × List Char) → List Char
  | [] => []
  | [kv] => extOne kv
  | kv :: rest => extOne kv ++ ", ".toList ++ extConcat rest

/-- Mirror of `WebSocketHandshake::buildRequest`. The 16 random bytes drawn
by `Utils::randomBytes(16)` enter as `key`; OpenSSL's `SHA1` (a library
external to this repository) enters as the function `sha1` from the bytes
of its input to its 20-byte digest. Result: (request text, client key in
base64, expected `Sec-WebSocket-Accept` in base64). -/
def buildRequest (sha1 : List Nat → List Nat) (key : List Nat)
    (u : URLRec) (cfg : WebSocketConfig) : List Char × List Char × List Char :=
  let clientKey := base64Encode key
  let expected := base64Encode (sha1 ((clientKey ++ wsGUID).map Char.toNat))
  let req :=
    "GET ".toList ++ u.path ++ " HTTP/1.1".toList ++ crlf ++
    "Host: ".toList ++ u.host ++
      (if (u.port = 80 ∧ u.scheme = "ws".toList) ∨ (u.port = 443 ∧ u.scheme = "wss".toList)
       then [] else [':'] ++ (toString u.port).toList) ++ crlf ++
    "Upgrade: websocket".toList ++ crlf ++
    "Connection: Upgrade".toList ++ crlf ++
    ("Sec-WebSocket-Key: ".toList ++ clientKey ++ crlf) ++
    "Sec-WebSocket-Version: 13".toList ++ crlf ++
    (cfg.headers.foldr (fun kv acc => kv.1 ++ ": ".toList ++ kv.2 ++ crlf ++ acc) []) ++
    (if cfg.extensions = [] then []
     else "Sec-WebSocket-Extensions: ".toList ++ extConcat cfg.extensions ++ crlf) ++
    crlf
  (req, clientKey, expected)

/-- Mirror of `WebSocketResult` as used by the handshake validator. -/
structure WSResult where
  code : ResultCode
  message : List Char
deriving DecidableEq, Repr

/-- Checks after the header loop of `validateResponse`. -/
def validateFinish (hasUp hasConn hasAcc : Bool) : WSResult :=
  if ¬ hasUp then ⟨.HANDSHAKE_ERROR, "missing Upgrade".toList⟩
  else if ¬ hasConn then ⟨.HANDSHAKE_ERROR, "missing Connection".toList⟩
  else if ¬ hasAcc then ⟨.HANDSHAKE_ERROR, "bad Sec-WebSocket-Accept".toList⟩
  else ⟨.SUCCESS, []⟩

/-- Header loop of `WebSocketHandshake::validateResponse`: trim each line,
break at the first empty one, skip lines without `':'`, lower-case the key,
trim the value, and set the three flags exactly as the source's
`if`/`else if` chain does. -/
def validateLoop (ls : List (List Char)) (expected : List Char)
    (hasUp hasConn hasAcc : Bool) : WSResult :=
  match ls with
  | [] => validateFinish hasUp hasConn hasAcc
  | ln0 :: rest =>
    let ln := trim ln0
    if ln = [] then validateFinish hasUp hasConn hasAcc
    else
      match strFind ln [':'] with
      | none => validateLoop rest expected hasUp hasConn hasAcc
      | some c =>
        let k := toLowerStr (trim (ln.take c))
        let v := trim (ln.drop (c + 1))
        if k = "upgrade".toList ∧ strFind (toLowerStr v) "websocket".toList ≠ none then
          validateLoop rest expected true hasConn hasAcc
        else if k = "connection".toList ∧ strFind (toLowerStr v) "upgrade".toList ≠ none then
          validateLoop rest expected hasUp true hasAcc
        else if k = "sec-websocket-accept".toList then
          (if v = expected then validateLoop rest expected hasUp hasConn true
           else validateLoop rest expected hasUp hasConn hasAcc)
        else validateLoop rest expected hasUp hasConn hasAcc

/-- Mirror of `WebSocketHandshake::validateResponse`. -/
def validateResponse (resp expected : List Char) : WSResult :=
  match splitCpp resp '\n' with
  | [] => ⟨.HANDSHAKE_ERROR, "empty response".toList⟩
  | l0 :: rest =>
    let status := trim l0
    if strFind status "HTTP/1.1 101".toList = none then
      ⟨.HANDSHAKE_ERROR, "bad status: ".toList ++ status⟩
    else validateLoop rest expected false false false

end WS

namespace WS

/-- A client in the OPEN state with the transport up and nothing written
yet. -/
def openCS : ClientState := ⟨.OPEN, false, true, []⟩

/-- An incoming CLOSE frame as a server would send it (unmasked, empty). -/
def closeFrameIn : WSFrame := ⟨true, 8, false, [], []⟩

/-- An incoming frame with the reserved opcode 3, outside the valid set. -/
def unknownOpFrame : WSFrame := ⟨true, 3, false, [], []⟩

/-- A 20-byte buffer whose 8-byte extended length field holds `2 ^ 64 - 14`:
the `uint64` additions `i + len` inside `parse` wrap for it. -/
def wrapInput : List Nat :=
  [130, 255, 255, 255, 255, 255, 255, 255, 255, 242, 1, 2, 3, 4, 9, 9, 9, 9, 9, 9]

/-- A BINARY frame whose payload exceeds the default 1 MiB limit by one
byte. -/
def overMaxFrame : WSFrame := ⟨true, 2, false, [], List.replicate (1024 * 1024 + 1) 0⟩

/-- C2: for every frame with `final = true`, `masked = true`, a 4-byte mask
key, an opcode in the valid set and a payload of any length the machine can
represent (total frame size below `2 ^ 64`), parsing the serialization
succeeds, yields a frame equal to the original in every field, and reports
a consumed count equal to the length of the serialization. -/
theorem claim_C2_roundtrip (f : WSFrame)
    (hfin : f.fin = true) (hm : f.masked = true) (hmk : f.mask_key.length = 4)
    (hop : f.opcode ∈ [0, 1, 2, 8, 9, 10])
    (hL : f.payload.length + 14 < 2 ^ 64) :
    parse (serialize f) = (.ok f, (serialize f).length) := by
  have hop16 : f.opcode < 16 := by
    simp only [List.mem_cons, List.not_mem_nil, or_false] at hop
    omega
  have h := parse_serialize_append f [] hop16 (fun _ => hmk)
    (fun hc => by rw [hm] at hc; exact absurd hc (by simp)) hL
  rwa [List.append_nil] at h

/-- C2 witness: a concrete masked TEXT frame at the 126-byte extended-length
boundary round-trips. -/
theorem claim_C2_roundtrip_witness :
    parse (serialize ⟨true, 1, true, [1, 2, 3, 4], List.replicate 126 7⟩)
      = (.ok ⟨true, 1, true, [1, 2, 3, 4], List.replicate 126 7⟩,
        (serialize ⟨true, 1, true, [1, 2, 3, 4], List.replicate 126 7⟩).length) :=
  claim_C2_roundtrip _ rfl rfl (by decide) (by decide) (by decide)

/-- C3: for the byte string `B = serialize f` of one complete frame, `parse`
on every proper prefix of `B` fails (need-more) with 0 bytes consumed and
the buffer untouched, while `parse` on `B` followed by arbitrary extra bytes
returns the frame and consumes exactly `B.length`. -/
theorem claim_C3_incremental (f : WSFrame)
    (hop : f.opcode < 16)
    (hmk4 : f.masked = true → f.mask_key.length = 4)
    (hmk0 : f.masked = false → f.mask_key = [])
    (hL : f.payload.length + 14 < 2 ^ 64) :
    (∀ n, n < (serialize f).length →
      ∃ msg, parse ((serialize f).take n) = (.error msg, 0)) ∧
    (∀ extra, parse (serialize f ++ extra) = (.ok f, (serialize f).length)) := by
  have hfull := parse_serialize_append f [] hop hmk4 hmk0 hL
  rw [List.append_nil] at hfull
  exact ⟨fun n hn => parse_truncated_incomplete (serialize f) f hfull n hn,
    fun extra => parse_serialize_append f extra hop hmk4 hmk0 hL⟩

/-- C3 witness: a 6-byte masked PING frame, its 5-byte prefix, and two
trailing garbage bytes. -/
theorem claim_C3_incremental_witness :
    (∃ msg, parse ((serialize ⟨true, 9, true, [1, 2, 3, 4], []⟩).take 5)
      = (.error msg, 0)) ∧
    parse (serialize ⟨true, 9, true, [1, 2, 3, 4], []⟩ ++ [7, 7])
      = (.ok ⟨true, 9, true, [1, 2, 3, 4], []⟩,
        (serialize ⟨true, 9, true, [1, 2, 3, 4], []⟩).length) := by
  have h := claim_C3_incremental ⟨true, 9, true, [1, 2, 3, 4], []⟩
    (by decide) (fun _ => rfl) (fun hc => nomatch hc) (by decide)
  exact ⟨h.1 5 (by decide), h.2 [7, 7]⟩

/-- C10 counterexample: on `wrapInput` the `uint64` length check wraps, so
`parse` succeeds with `consumed = 0` while the mask key and the (nonempty)
payload were read from bytes 10..19 of the input — not from within the
first `consumed` bytes; indeed the first `consumed` bytes do not even parse. -/
theorem claim_C10_counterexample :
    parse wrapInput
      = (.ok ⟨true, 2, true, [1, 2, 3, 4], [8, 11, 10, 13, 8, 11]⟩, 0) ∧
    (∃ msg, parse (wrapInput.take 0) = (.error msg, 0)) := by
  constructor
  · decide
  · exact ⟨"incomplete header", by decide⟩

/-- C10 (amended): `parse` is total; every failure reports `consumed = 0`
(the buffer is left intact), and every success reports `consumed` no larger
than the input length. The claim's stronger in-bounds property — mask and
payload read entirely from within the first `consumed` bytes — fails when
the crafted 64-bit length makes the `uint64` additions wrap. -/
theorem claim_C10_amended (inp : List Nat) :
    (∀ msg c, parse inp = (.error msg, c) → c = 0) ∧
    (∀ fr c, parse inp = (.ok fr, c) → c ≤ inp.length) := by
  rcases parse_cases inp with ⟨msg0, h0⟩ | ⟨fr0, c0, h0, hc0⟩
  · constructor
    · intro msg c h
      exact (congrArg Prod.snd (h0.symm.trans h)).symm
    · intro fr c h
      exact absurd (congrArg Prod.fst (h0.symm.trans h)) (by simp)
  · constructor
    · intro msg c h
      exact absurd (congrArg Prod.fst (h0.symm.trans h)) (by simp)
    · intro fr c h
      have hcc : c0 = c := congrArg Prod.snd (h0.symm.trans h)
      omega

/-- C10 witness: both parts applied at concrete inputs (a 1-byte truncated
header, and the wrap-around buffer where `parse` succeeds with consumed 0). -/
theorem claim_C10_amended_witness :
    (0 : Nat) = 0 ∧ (0 : Nat) ≤ wrapInput.length :=
  ⟨(claim_C10_amended [130]).1 "incomplete header" 0 (by decide),
   (claim_C10_amended wrapInput).2 ⟨true, 2, true, [1, 2, 3, 4], [8, 11, 10, 13, 8, 11]⟩
      0 (by decide)⟩

/-- C4 (code evidence): with the default configuration (`max_frame_size` =
1 MiB), a BINARY frame one byte over the limit parses successfully — no
size limit is consulted anywhere in `parse` — and `handleFrame` delivers
its oversized payload to the binary callback instead of reporting a
protocol violation. -/
theorem claim_C4_maxFrameSize_unenforced :
    ({} : WebSocketConfig).max_frame_size < overMaxFrame.payload.length ∧
    parse (serialize overMaxFrame) = (.ok overMaxFrame, (serialize overMaxFrame).length) ∧
    handleFrame openCS [0, 0, 0, 0] overMaxFrame
      = (openCS, [.onBinary overMaxFrame.payload]) := by
  have hlen : overMaxFrame.payload.length = 1024 * 1024 + 1 := List.length_replicate _ _
  refine ⟨by rw [hlen]; decide, ?_, rfl⟩
  have h := parse_serialize_append overMaxFrame [] (by decide)
    (fun hc => nomatch hc) (fun _ => rfl) (by rw [hlen]; decide)
  rwa [List.append_nil] at h

/-- C5 counterexample: dispatching a CLOSE frame while OPEN leaves the
connection state at OPEN — the engine never stores CLOSING. -/
theorem claim_C5_counterexample :
    (handleFrame openCS [1, 2, 3, 4] closeFrameIn).1.state ≠ WSState.CLOSING ∧
    (handleFrame openCS [1, 2, 3, 4] closeFrameIn).1.state = WSState.OPEN := by
  decide

/-- C5 (amended): on a received CLOSE frame in the OPEN state the engine
replies with a masked empty close frame and sets the stop flag, with no
callback fired, but the state remains OPEN (no CLOSING transition); the
transport is closed and the state reaches CLOSED — with the close callback
fired — only when `disconnect` runs (joining the worker first). -/
theorem claim_C5_amended (cs : ClientState) (mk mk2 : List Nat) (f : WSFrame)
    (hopen : cs.state = WSState.OPEN) (hop : f.opcode = 8) :
    handleFrame cs mk f
      = ({ cs with
            wire := cs.wire ++ serialize ⟨true, 8, true, mk, []⟩
            stop := true }, []) ∧
    (handleFrame cs mk f).1.state = WSState.OPEN ∧
    (disconnect (handleFrame cs mk f).1 mk2).1.state = WSState.CLOSED ∧
    (disconnect (handleFrame cs mk f).1 mk2).1.transportOpen = false ∧
    (disconnect (handleFrame cs mk f).1 mk2).2 = [WSEvent.onClose] := by
  have hsf : sendFrame cs mk 8 []
      = ({ cs with wire := cs.wire ++ serialize ⟨true, 8, true, mk, []⟩ }, .SUCCESS) := by
    simp only [sendFrame, hopen]
    simp
  have h1 : handleFrame cs mk f
      = ({ cs with
            wire := cs.wire ++ serialize ⟨true, 8, true, mk, []⟩
            stop := true }, []) := by
    simp only [handleFrame, hop]
    norm_num
    rw [hsf]
    simp
  refine ⟨h1, ?_, ?_, ?_, ?_⟩ <;> rw [h1] <;> simp [disconnect, hopen]

/-- C5 witness: the amended behaviour at a concrete OPEN client. -/
theorem claim_C5_amended_witness :
    (disconnect (handleFrame openCS [1, 2, 3, 4] closeFrameIn).1 [5, 6, 7, 8]).1.state
      = WSState.CLOSED :=
  (claim_C5_amended openCS [1, 2, 3, 4] [5, 6, 7, 8] closeFrameIn rfl rfl).2.2.1

/-- C7: every frame the client emits goes through `sendFrame` — send-text,
send-binary, ping, the automatic pong reply and the close frame of
`disconnect` — as a single unfragmented frame with `fin = true` and
`masked = true` carrying the freshly drawn 4-byte mask key, and on the
wire the frame ends with the mask key followed by the payload XORed
bytewise with `mask_key[i mod 4]`. -/
theorem claim_C7_masking (cs : ClientState) (mk : List Nat) (op : Nat)
    (payload : List Nat) (hopen : cs.state = WSState.OPEN) (hmk : mk.length = 4) :
    sendFrame cs mk op payload
      = ({ cs with wire := cs.wire ++ serialize ⟨true, op, true, mk, payload⟩ },
        .SUCCESS) ∧
    sendText cs mk payload = sendFrame cs mk 1 payload ∧
    sendBinary cs mk payload = sendFrame cs mk 2 payload ∧
    pingFrame cs mk payload = sendFrame cs mk 9 payload ∧
    (∀ f : WSFrame, f.opcode = 9 →
      handleFrame cs mk f = ((sendFrame cs mk 10 f.payload).1, [])) ∧
    (disconnect cs mk).1.wire = cs.wire ++ serialize ⟨true, 8, true, mk, []⟩ ∧
    (∃ hdr, serialize ⟨true, op, true, mk, payload⟩
        = hdr ++ (mk ++ maskApply mk 0 payload)) ∧
    (∀ i, i < payload.length →
      (maskApply mk 0 payload).getD i 0 = payload.getD i 0 ^^^ mk.getD (i % 4) 0) := by
  have hsf : ∀ o p, sendFrame cs mk o p
      = ({ cs with wire := cs.wire ++ serialize ⟨true, o, true, mk, p⟩ }, .SUCCESS) := by
    intro o p
    simp only [sendFrame, hopen]
    simp
  refine ⟨hsf op payload, rfl, rfl, rfl, ?_, ?_, ?_, ?_⟩
  · intro f hf
    simp only [handleFrame, hf]
    norm_num
  · simp only [disconnect, hopen]
    norm_num
    rw [hsf 8 []]
    simp
  · by_cases h1 : payload.length < 126
    · exact ⟨[128 ||| (op &&& 15), 128 ||| payload.length], by simp [serialize, h1]⟩
    · by_cases h2 : payload.length ≤ 65535
      · exact ⟨[128 ||| (op &&& 15), 254,
          (payload.length >>> 8) &&& 255, payload.length &&& 255],
          by simp [serialize, h1, h2]⟩
      · exact ⟨(128 ||| (op &&& 15)) :: 255 :: (List.range 8).map
          (fun k => (payload.length >>> ((7 - k) * 8)) &&& 255),
          by simp [serialize, h1, h2]⟩
  · intro i hi
    rw [maskApply_getD mk payload 0 i hi]
    congr 2
    omega

/-- C7 witness: the XOR-on-the-wire property at a concrete frame and
index. -/
theorem claim_C7_masking_witness :
    (maskApply [1, 2, 3, 4] 0 [5, 6]).getD 1 0 = 6 ^^^ 2 := by
  have h := (claim_C7_masking openCS [1, 2, 3, 4] 2 [5, 6] rfl rfl).2.2.2.2.2.2.2 1
    (by decide)
  simpa using h

/-- C8 counterexample: a frame with the reserved opcode 3 dispatched in the
OPEN state is silently dropped: no callback (in particular no on-error)
fires, no frame is sent, and no state change or stop signal occurs. -/
theorem claim_C8_counterexample :
    handleFrame openCS [1, 2, 3, 4] unknownOpFrame = (openCS, []) := by
  decide

/-- C8 (amended): `handleFrame` on any opcode outside
text/binary/close/ping/pong (including continuation, which has no `case`)
falls into the `default:` branch and does nothing: state, stop flag, wire
and callbacks are all untouched. -/
theorem claim_C8_amended (cs : ClientState) (mk : List Nat) (f : WSFrame)
    (h1 : f.opcode ≠ 1) (h2 : f.opcode ≠ 2) (h9 : f.opcode ≠ 9)
    (h10 : f.opcode ≠ 10) (h8 : f.opcode ≠ 8) :
    handleFrame cs mk f = (cs, []) := by
  simp only [handleFrame, if_neg h1, if_neg h2, if_neg h9, if_neg h10, if_neg h8]

/-- C8 witness: a concrete opcode-5 frame with a payload is dropped. -/
theorem claim_C8_amended_witness :
    handleFrame openCS [1, 2, 3, 4] ⟨true, 5, false, [], [9]⟩ = (openCS, []) :=
  claim_C8_amended openCS [1, 2, 3, 4] ⟨true, 5, false, [], [9]⟩
    (by decide) (by decide) (by decide) (by decide) (by decide)

end WS

namespace WS

lemma strFind_cons_self (c : Char) (s : List Char) : strFind (c :: s) [c] = some 0 := by
  simp [strFind, List.isPrefixOf]

lemma strFind_cons_ne (a c : Char) (s : List Char) (h : a ≠ c) :
    strFind (a :: s) [c] = (strFind s [c]).map (· + 1) := by
  have hba : (c == a) = false := by
    simp only [beq_eq_false_iff_ne, ne_eq]
    exact fun hc => h hc.symm
  rw [strFind]
  simp [List.isPrefixOf, hba]

lemma strFind_append_not_mem (l1 l2 : List Char) (c : Char) (h : c ∉ l1) :
    strFind (l1 ++ l2) [c] = (strFind l2 [c]).map (· + l1.length) := by
  induction l1 with
  | nil =>
      cases h2 : strFind l2 [c] <;> simp [h2]
  | cons a t ih =>
      have hac : a ≠ c := fun hc => h (hc ▸ List.mem_cons_self a t)
      have ht : c ∉ t := fun hc => h (List.mem_cons_of_mem a hc)
      rw [List.cons_append, strFind_cons_ne a c (t ++ l2) hac, ih ht]
      cases h2 : strFind l2 [c] <;> simp [h2]
      omega

lemma strFind_scheme_ws (rest : List Char) :
    strFind ('w' :: 's' :: ':' :: '/' :: '/' :: rest) [':', '/', '/'] = some 2 := by
  rw [strFind]
  simp only [List.isPrefixOf]
  norm_num
  rw [strFind]
  simp only [List.isPrefixOf]
  norm_num
  rw [strFind]
  simp [List.isPrefixOf]

lemma strFind_scheme_wss (rest : List Char) :
    strFind ('w' :: 's' :: 's' :: ':' :: '/' :: '/' :: rest) [':', '/', '/'] = some 3 := by
  rw [strFind]
  simp only [List.isPrefixOf]
  norm_num
  rw [strFind]
  simp only [List.isPrefixOf]
  norm_num
  rw [strFind]
  simp only [List.isPrefixOf]
  norm_num
  rw [strFind]
  simp [List.isPrefixOf]

end WS

namespace WS

/-- C6 counterexample: for a URL containing `'?'`, `URL::parse` returns the
whole remainder (query included) as the path and leaves the query empty —
it never splits at `'?'` — contradicting the claimed path/query split. -/
theorem claim_C6_counterexample :
    urlParse ("ws://h:1/p?q".toList)
      = .ok ⟨"ws".toList, "h".toList, 1, "/p?q".toList, []⟩ ∧
    "/p?q".toList ≠ "/p".toList ∧ ([] : List Char) ≠ "q".toList := by
  decide

/-- C6 (amended): for scheme ∈ ws/wss, a non-empty host containing neither
`':'` nor `'/'`, a non-empty all-digit port string of value 1..65535 and a
path starting with `'/'`, the parser succeeds with exactly the scheme, the
host, the numeric port, the path equal to the entire portion from the first
`'/'` on (any `'?'` and query text included, verbatim — no percent-decoding),
and an always-empty query. -/
theorem claim_C6_amended (scheme host portStr t : List Char)
    (hs : scheme = "ws".toList ∨ scheme = "wss".toList)
    (hhost : host ≠ []) (hhc : ':' ∉ host) (hhs : '/' ∉ host)
    (hps : portStr ≠ []) (hpd : ∀ c ∈ portStr, c.isDigit)
    (hp1 : 1 ≤ atoiNat portStr) (hp2 : atoiNat portStr ≤ 65535) :
    urlParse (scheme ++ "://".toList ++ host ++ [':'] ++ portStr ++ '/' :: t)
      = .ok ⟨scheme, host, atoiNat portStr, '/' :: t, []⟩ := by
  have hnp : '/' ∉ portStr := fun hmem => absurd (hpd '/' hmem) (by decide)
  have hnorm : scheme ++ "://".toList ++ host ++ [':'] ++ portStr ++ '/' :: t
      = scheme ++ (':' :: '/' :: '/' :: (host ++ (':' :: (portStr ++ '/' :: t)))) := by
    simp
  rw [hnorm]
  have hfind : strFind
      (scheme ++ (':' :: '/' :: '/' :: (host ++ (':' :: (portStr ++ '/' :: t)))))
      "://".toList = some scheme.length := by
    rcases hs with rfl | rfl
    · exact strFind_scheme_ws _
    · exact strFind_scheme_wss _
  have htake : (scheme ++ (':' :: '/' :: '/' :: (host ++ (':' :: (portStr ++ '/' :: t))))).take
      scheme.length = scheme := List.take_left _ _
  have hdrop : (scheme ++ (':' :: '/' :: '/' :: (host ++ (':' :: (portStr ++ '/' :: t))))).drop
      (scheme.length + 3) = host ++ (':' :: (portStr ++ '/' :: t)) := by
    rw [show scheme ++ (':' :: '/' :: '/' :: (host ++ (':' :: (portStr ++ '/' :: t))))
        = (scheme ++ [':', '/', '/']) ++ (host ++ (':' :: (portStr ++ '/' :: t))) by simp]
    exact List.drop_left' (by simp)
  have hslash : strFind (host ++ (':' :: (portStr ++ '/' :: t))) ['/']
      = some (host.length + 1 + portStr.length) := by
    rw [strFind_append_not_mem host _ '/' hhs, strFind_cons_ne ':' '/' _ (by decide),
      strFind_append_not_mem portStr _ '/' hnp, strFind_cons_self]
    simp
    omega
  have htakeK : (host ++ (':' :: (portStr ++ '/' :: t))).take
      (host.length + 1 + portStr.length) = host ++ (':' :: portStr) := by
    rw [show host ++ (':' :: (portStr ++ '/' :: t))
        = (host ++ (':' :: portStr)) ++ ('/' :: t) by simp]
    exact List.take_left' (by simp; omega)
  have hdropK : (host ++ (':' :: (portStr ++ '/' :: t))).drop
      (host.length + 1 + portStr.length) = '/' :: t := by
    rw [show host ++ (':' :: (portStr ++ '/' :: t))
        = (host ++ (':' :: portStr)) ++ ('/' :: t) by simp]
    exact List.drop_left' (by simp; omega)
  have hcolon : strFind (host ++ (':' :: portStr)) [':'] = some host.length := by
    rw [strFind_append_not_mem host _ ':' hhc, strFind_cons_self]
    simp
  have hhost2 : (host ++ (':' :: portStr)).take host.length = host := List.take_left _ _
  have hport : (host ++ (':' :: portStr)).drop (host.length + 1) = portStr := by
    rw [show host ++ (':' :: portStr) = (host ++ [':']) ++ portStr by simp]
    exact List.drop_left' (by simp)
  simp only [urlParse, hfind, htake, hdrop, hslash, htakeK, hdropK, hcolon, hhost2, hport]
  rw [if_neg (by push_neg; exact ⟨hps, hpd⟩), if_neg (by omega)]
  simp only [urlFinish]
  rw [if_neg hhost]
  rw [if_neg (by rcases hs with rfl | rfl <;> simp)]

/-- C6 witness: a concrete ws URL with an explicit port. -/
theorem claim_C6_amended_witness :
    urlParse ("ws://example.com:8080/chat".toList)
      = .ok ⟨"ws".toList, "example.com".toList, atoiNat "8080".toList,
        "/chat".toList, []⟩ :=
  claim_C6_amended "ws".toList "example.com".toList "8080".toList "chat".toList
    (Or.inl rfl) (by decide) (by decide) (by decide) (by decide) (by decide)
    (by decide) (by decide)

end WS

namespace WS

/-- C9: if `n` threads each call `sendFrame` concurrently and the system
runs to completion, the transport stream is exactly the concatenation of
the `n` complete serialized frames in some order — frames are never
interleaved byte-wise, because every byte of a frame is written while the
sender holds `send_mtx_`. -/
theorem claim_C9_sender_serialization (n : Nat) (frames : Fin n → WSFrame)
    (s : SenderState n)
    (h : Relation.ReflTransGen (SenderStep n) (senderInit n frames) s)
    (hdone : ∀ i, s.ph i = SPhase.done) :
    ∃ order : List (Fin n), order.Perm (List.finRange n) ∧
      s.wire = (order.map (fun i => serialize (frames i))).flatten := by
  obtain ⟨dl, hnd, hmem, _, _, hcase⟩ := senderInv_reach n frames s h
  refine ⟨dl, ?_, ?_⟩
  · rw [List.perm_ext_iff_of_nodup hnd (List.nodup_finRange n)]
    intro i
    rw [hmem i]
    simp [hdone i, List.mem_finRange]
  · rcases hcase with ⟨_, _, hw⟩ | ⟨hh, pre, rem, _, hph, _, _, _⟩
    · exact hw
    · rw [hdone hh] at hph
      exact SPhase.noConfusion hph

/-- A concrete masked PONG frame used to exercise the sender system. -/
def pongW : WSFrame := ⟨true, 10, true, [1, 2, 3, 4], []⟩

/-- One thread sending `pongW`. -/
def pongFrames : Fin 1 → WSFrame := fun _ => pongW

def s0C : SenderState 1 := senderInit 1 pongFrames

def s1C : SenderState 1 :=
  { s0C with ph := Function.update s0C.ph 0 (.ready (serialize pongW)) }

def s2C : SenderState 1 :=
  { s1C with holder := some 0, ph := Function.update s1C.ph 0 (.writing (serialize pongW)) }

def s3C : SenderState 1 :=
  { s2C with wire := s2C.wire ++ serialize pongW, ph := Function.update s2C.ph 0 (.writing []) }

def s4C : SenderState 1 :=
  { s3C with holder := none, ph := Function.update s3C.ph 0 .done }

lemma stepC01 : SenderStep 1 s0C s1C := SenderStep.encode s0C 0 pongW rfl

lemma stepC12 : SenderStep 1 s1C s2C :=
  SenderStep.acquire s1C 0 (serialize pongW) rfl rfl

lemma stepC23 : SenderStep 1 s2C s3C :=
  SenderStep.write s2C 0 (serialize pongW) [] rfl (by decide) (by decide)

lemma stepC34 : SenderStep 1 s3C s4C := SenderStep.release s3C 0 rfl rfl

/-- C9 witness: one thread runs encode/acquire/write/release to completion
and the wire is exactly its serialized frame. -/
theorem claim_C9_sender_serialization_witness :
    ∃ order : List (Fin 1), order.Perm (List.finRange 1) ∧
      s4C.wire = (order.map (fun i => serialize (pongFrames i))).flatten :=
  claim_C9_sender_serialization 1 pongFrames s4C
    (Relation.ReflTransGen.tail (Relation.ReflTransGen.tail
      (Relation.ReflTransGen.tail (Relation.ReflTransGen.single stepC01)
        stepC12) stepC23) stepC34)
    (by decide)

end WS

namespace WS

lemma validateFinish_code (u c a : Bool) :
    (validateFinish u c a).code = ResultCode.SUCCESS ∨
      (validateFinish u c a).code = ResultCode.HANDSHAKE_ERROR := by
  cases u <;> cases c <;> cases a <;> decide

lemma validateFinish_acc (u c : Bool) :
    (validateFinish u c false).code ≠ ResultCode.SUCCESS := by
  cases u <;> cases c <;> decide

lemma validateLoop_success (ls : List (List Char)) (A : List Char) :
    ∀ u c : Bool, (validateLoop ls A u c false).code = ResultCode.SUCCESS →
      ∃ ln ∈ ls, ∃ cpos,
        strFind (trim ln) [':'] = some cpos ∧
        toLowerStr (trim ((trim ln).take cpos)) = "sec-websocket-accept".toList ∧
        trim ((trim ln).drop (cpos + 1)) = A := by
  induction ls with
  | nil =>
    intro u c h
    exact absurd h (validateFinish_acc u c)
  | cons ln0 rest ih =>
    intro u c h
    simp only [validateLoop] at h
    split at h
    · exact absurd h (validateFinish_acc u c)
    · cases hc : strFind (trim ln0) [':'] with
      | none =>
        simp only [hc] at h
        obtain ⟨ln, hln, hr⟩ := ih u c h
        exact ⟨ln, List.mem_cons_of_mem _ hln, hr⟩
      | some cpos =>
        simp only [hc] at h
        split at h
        · obtain ⟨ln, hln, hr⟩ := ih true c h
          exact ⟨ln, List.mem_cons_of_mem _ hln, hr⟩
        · split at h
          · obtain ⟨ln, hln, hr⟩ := ih u true h
            exact ⟨ln, List.mem_cons_of_mem _ hln, hr⟩
          · split at h
            · next hkey =>
              split at h
              · next hva =>
                exact ⟨ln0, List.mem_cons_self _ _, cpos, hc, hkey, hva⟩
              · obtain ⟨ln, hln, hr⟩ := ih u c h
                exact ⟨ln, List.mem_cons_of_mem _ hln, hr⟩
            · obtain ⟨ln, hln, hr⟩ := ih u c h
              exact ⟨ln, List.mem_cons_of_mem _ hln, hr⟩

lemma validateLoop_code (ls : List (List Char)) (A : List Char) :
    ∀ u c a : Bool, (validateLoop ls A u c a).code = ResultCode.SUCCESS ∨
      (validateLoop ls A u c a).code = ResultCode.HANDSHAKE_ERROR := by
  induction ls with
  | nil =>
    intro u c a
    exact validateFinish_code u c a
  | cons ln0 rest ih =>
    intro u c a
    simp only [validateLoop]
    split
    · exact validateFinish_code u c a
    · split
      · exact ih u c a
      · split
        · exact ih true c a
        · split
          · exact ih u true a
          · split
            · split
              · exact ih u c true
              · exact ih u c a
            · exact ih u c a

lemma validateResponse_success (resp A : List Char)
    (h : (validateResponse resp A).code = ResultCode.SUCCESS) :
    ∃ ln ∈ (splitCpp resp '\n').drop 1, ∃ cpos,
      strFind (trim ln) [':'] = some cpos ∧
      toLowerStr (trim ((trim ln).take cpos)) = "sec-websocket-accept".toList ∧
      trim ((trim ln).drop (cpos + 1)) = A := by
  cases hsp : splitCpp resp '\n' with
  | nil =>
    simp [validateResponse, hsp] at h
  | cons l0 rest =>
    simp only [validateResponse, hsp] at h
    split at h
    · simp at h
    · obtain ⟨ln, hln, hr⟩ := validateLoop_success rest A false false h
      exact ⟨ln, hln, hr⟩

lemma validateResponse_code (resp A : List Char) :
    (validateResponse resp A).code = ResultCode.SUCCESS ∨
      (validateResponse resp A).code = ResultCode.HANDSHAKE_ERROR := by
  cases hsp : splitCpp resp '\n' with
  | nil =>
    simp [validateResponse, hsp]
  | cons l0 rest =>
    simp only [validateResponse, hsp]
    split
    · exact Or.inr rfl
    · exact validateLoop_code rest A false false false

end WS

namespace WS

/-- C1: for every 16-byte key, `buildRequest` sends `Sec-WebSocket-Key`
equal to `base64Encode key` (both as the returned client key and as a
header line of the request text) and computes the expected accept value as
the base64 encoding of the raw 20-byte SHA-1 digest of the concatenation
of the base64 key text with the RFC 6455 GUID; `validateResponse` against
that expected value succeeds only if some header line carries the key
`sec-websocket-accept` with a trimmed value byte-for-byte equal to it, and
otherwise its result code is `HANDSHAKE_ERROR`. -/
theorem claim_C1_handshake (sha1 : List Nat → List Nat) (key : List Nat)
    (u : URLRec) (cfg : WebSocketConfig) (resp : List Char)
    (hk : key.length = 16) :
    (buildRequest sha1 key u cfg).2.1 = base64Encode key ∧
    (buildRequest sha1 key u cfg).2.2
      = base64Encode (sha1 ((base64Encode key ++ wsGUID).map Char.toNat)) ∧
    (∃ pre post, (buildRequest sha1 key u cfg).1
      = pre ++ ("Sec-WebSocket-Key: ".toList ++ base64Encode key ++ crlf) ++ post) ∧
    ((validateResponse resp (buildRequest sha1 key u cfg).2.2).code
        = ResultCode.SUCCESS →
      ∃ ln ∈ (splitCpp resp '\n').drop 1, ∃ cpos,
        strFind (trim ln) [':'] = some cpos ∧
        toLowerStr (trim ((trim ln).take cpos)) = "sec-websocket-accept".toList ∧
        trim ((trim ln).drop (cpos + 1))
          = base64Encode (sha1 ((base64Encode key ++ wsGUID).map Char.toNat))) ∧
    ((validateResponse resp (buildRequest sha1 key u cfg).2.2).code
        = ResultCode.SUCCESS ∨
      (validateResponse resp (buildRequest sha1 key u cfg).2.2).code
        = ResultCode.HANDSHAKE_ERROR) := by
  refine ⟨rfl, rfl, ?_, ?_, validateResponse_code _ _⟩
  · refine ⟨"GET ".toList ++ u.path ++ " HTTP/1.1".toList ++ crlf ++
      "Host: ".toList ++ u.host ++
        (if (u.port = 80 ∧ u.scheme = "ws".toList) ∨
            (u.port = 443 ∧ u.scheme = "wss".toList)
         then [] else [':'] ++ (toString u.port).toList) ++ crlf ++
      "Upgrade: websocket".toList ++ crlf ++
      "Connection: Upgrade".toList ++ crlf,
      "Sec-WebSocket-Version: 13".toList ++ crlf ++
      (cfg.headers.foldr (fun kv acc => kv.1 ++ ": ".toList ++ kv.2 ++ crlf ++ acc) []) ++
      (if cfg.extensions = [] then []
       else "Sec-WebSocket-Extensions: ".toList ++ extConcat cfg.extensions ++ crlf) ++
      crlf, ?_⟩
    simp [buildRequest, List.append_assoc]
  · intro h
    exact validateResponse_success resp _ h

/-- A stand-in for the external SHA-1 with a fixed 20-byte digest, used
only to instantiate the handshake theorem. -/
def zeroSha1 : List Nat → List Nat := fun _ => List.replicate 20 0

def wKeyC1 : List Nat := List.replicate 16 0

def wURLC1 : URLRec := ⟨"ws".toList, "h".toList, 80, "/".toList, []⟩

/-- C1 witness: a concrete 16-byte key, URL, default config and empty
response. -/
theorem claim_C1_handshake_witness :
    wKeyC1.length = 16 ∧
    ((buildRequest zeroSha1 wKeyC1 wURLC1 {}).2.1 = base64Encode wKeyC1 ∧
    (buildRequest zeroSha1 wKeyC1 wURLC1 {}).2.2
      = base64Encode (zeroSha1 ((base64Encode wKeyC1 ++ wsGUID).map Char.toNat)) ∧
    (∃ pre post, (buildRequest zeroSha1 wKeyC1 wURLC1 {}).1
      = pre ++ ("Sec-WebSocket-Key: ".toList ++ base64Encode wKeyC1 ++ crlf) ++ post) ∧
    ((validateResponse [] (buildRequest zeroSha1 wKeyC1 wURLC1 {}).2.2).code
        = ResultCode.SUCCESS →
      ∃ ln ∈ (splitCpp [] '\n').drop 1, ∃ cpos,
        strFind (trim ln) [':'] = some cpos ∧
        toLowerStr (trim ((trim ln).take cpos)) = "sec-websocket-accept".toList ∧
        trim ((trim ln).drop (cpos + 1))
          = base64Encode (zeroSha1 ((base64Encode wKeyC1 ++ wsGUID).map Char.toNat))) ∧
    ((validateResponse [] (buildRequest zeroSha1 wKeyC1 wURLC1 {}).2.2).code
        = ResultCode.SUCCESS ∨
      (validateResponse [] (buildRequest zeroSha1 wKeyC1 wURLC1 {}).2.2).code
        = ResultCode.HANDSHAKE_ERROR)) :=
  ⟨by decide, claim_C1_handshake zeroSha1 wKeyC1 wURLC1 {} [] (by decide)⟩

end WS
